import Mathlib

/-!
Verification of `prepare_windows_build.py` against its design document.

The script prepares a native Windows build of libpff: it acquires a fixed
set of dependency libraries (skipping directories that are already
complete), extracts the relevant archive members flattened into per-library
directories, generates `.h` headers from `.h.in` autoconf templates by an
ordered token-substitution table followed by a default pass that rewrites
remaining `@TOKEN@` placeholders to `0`, writes `setup.cfg` and a fixed
`config.h`, and finally verifies the resulting tree.

The embedding below follows the Python source closely.  Strings are
modelled as `List Char`; the filesystem pieces each phase touches are
modelled explicitly (a directory listing as a list of file names, a written
directory as an association list from file name to content).
-/

namespace PWB

/-- File names, path strings and file contents are all character lists. -/
abbrev Name := List Char

/-- Python `s.endswith(pat)`: `pat` is a suffix of `s`. -/
def endswith (s pat : Name) : Bool := pat.isSuffixOf s

/-- The character class `[A-Za-z0-9_]` used by the placeholder regex
`@[A-Za-z0-9_]+@` in `generate_h_from_template`. -/
def isWordChar (c : Char) : Bool := c.isAlphanum || decide (c = '_')

/-- Python `member.split("/")`: splitting on every slash, keeping empty
components (so `""` splits to `[""]` and `"a//b"` to `["a","","b"]`). -/
def splitSlash : Name → List Name
  | [] => [[]]
  | c :: rest =>
    if c = '/' then [] :: splitSlash rest
    else
      match splitSlash rest with
      | [] => [[c]]
      | h :: t => (c :: h) :: t

/-- The member filter of `extract_lib_sources`: at least three path
components, second component exactly the library name, and a non-empty
final component that ends in `.c`, `.h` or `.h.in` or equals
`Makefile.am`. -/
def keepMember (lib member : Name) : Bool :=
  let parts := splitSlash member
  decide (3 ≤ parts.length) && decide (parts.get? 1 = some lib) &&
    (match parts.getLast? with
     | none => false
     | some last =>
       !last.isEmpty &&
         (endswith last ".c".data || endswith last ".h".data ||
          endswith last ".h.in".data || decide (last = "Makefile.am".data)))

/-- `parts[-1]` of the split member path (the flattened output file name). -/
def lastComp (member : Name) : Name := ((splitSlash member).getLast?).getD []

/-- An in-memory archive: member paths paired with their content bytes. -/
abbrev Archive := List (Name × Name)

/-- A written destination directory: file names paired with contents. -/
abbrev FileSys := List (Name × Name)

/-- `open(target, "wb")`: writing a file replaces any previous file of the
same name. -/
def writeFile (fs : FileSys) (n c : Name) : FileSys :=
  fs.filter (fun p => !decide (p.1 = n)) ++ [(n, c)]

/-- The body of `extract_lib_sources`'s member loop: write a kept member
flattened to its final path component, skip everything else. -/
def extractStep (lib : Name) (fs : FileSys) (mc : Name × Name) : FileSys :=
  if keepMember lib mc.1 then writeFile fs (lastComp mc.1) mc.2 else fs

/-- `extract_lib_sources`: walk the member list in archive order and write
every kept member, flattened to its final path component, into the
destination directory. -/
def extract_lib_sources (lib : Name) (ar : Archive) : FileSys :=
  ar.foldl (extractStep lib) []

/-- The `extracted` counter returned by `extract_lib_sources` (every kept
member counts, including ones that overwrite an earlier write). -/
def extractCount (lib : Name) (ar : Archive) : Nat :=
  (ar.filter (fun mc => keepMember lib mc.1)).length

/-- Content of the file named `n`, if present (the last write wins). -/
def lookupLast (fs : FileSys) (n : Name) : Option Name :=
  ((fs.filter (fun p => decide (p.1 = n))).getLast?).map (·.2)

/-- How many files of the directory carry the name `n`. -/
def countName (fs : FileSys) (n : Name) : Nat :=
  (fs.filter (fun p => decide (p.1 = n))).length

/-- Scanner of Python `s.replace(pat, val)` for a non-empty `pat`: walk the
text left to right, replacing each non-overlapping occurrence of `pat` and
never rescanning inserted text.  `fuel` only bounds the recursion; it is
exact whenever `fuel ≥ s.length` (the caller passes `s.length`). -/
def replScan : Nat → Name → Name → Name → Name
  | 0, _, _, s => s
  | _ + 1, _, _, [] => []
  | fuel + 1, pat, val, c :: rest =>
    if pat.isPrefixOf (c :: rest) && !pat.isEmpty then
      val ++ replScan fuel pat val ((c :: rest).drop pat.length)
    else
      c :: replScan fuel pat val rest

/-- Python `s.replace(pat, val)` (an empty pattern inserts `val` before
every character and at the end, as in CPython). -/
def pyReplace (s pat val : Name) : Name :=
  if pat.isEmpty then val ++ s.foldr (fun c acc => c :: (val ++ acc)) []
  else replScan s.length pat val s

/-- Does `pat` occur as a contiguous substring of `s`? -/
def containsSub (pat : Name) : Name → Bool
  | [] => pat.isEmpty
  | c :: rest => pat.isPrefixOf (c :: rest) || containsSub pat rest

/-- The table pass of `generate_h_from_template`:
`for k, v in subs.items(): content = content.replace(k, v)` —
each (token, value) pair applied in table order. -/
def applySubs (subs : List (Name × Name)) (content : Name) : Name :=
  subs.foldl (fun c kv => pyReplace c kv.1 kv.2) content

/-- One pass of `re.sub(r"@[A-Za-z0-9_]+@", "0", s)` as a scanner.
State `none`: no pending `@`.  State `some acc`: an `@` was read, followed
by the word characters `acc` (in reverse).  A match (`@`, one or more word
characters, `@`) emits `0` and resumes after the closing `@`; a failed
attempt emits the pending text and resumes — matching the regex engine's
leftmost, non-overlapping behaviour (greedy `+` cannot backtrack here
because `@` is not a word character). -/
def reSubAux : Option Name → Name → Name
  | none, [] => []
  | some acc, [] => '@' :: acc.reverse
  | none, c :: rest =>
    if c = '@' then reSubAux (some []) rest
    else c :: reSubAux none rest
  | some acc, c :: rest =>
    if isWordChar c then reSubAux (some (c :: acc)) rest
    else if c = '@' then
      if acc.isEmpty then '@' :: reSubAux (some []) rest
      else '0' :: reSubAux none rest
    else ('@' :: acc.reverse) ++ (c :: reSubAux none rest)

/-- `re.sub(r"@[A-Za-z0-9_]+@", "0", s)`: default every remaining
placeholder to `0`. -/
def reSubDefault (s : Name) : Name := reSubAux none s

/-- `generate_h_from_template` on the template's text: the ordered table
pass followed by the placeholder-defaulting pass. -/
def generate_h_from_template (subs : List (Name × Name)) (content : Name) : Name :=
  reSubDefault (applySubs subs content)

/-- Does `s` contain a substring `@`, one or more word characters, `@`
(an unresolved placeholder)? -/
def hasPlaceholder : Name → Bool
  | [] => false
  | c :: rest =>
    (decide (c = '@') && !(rest.takeWhile isWordChar).isEmpty &&
      (match rest.dropWhile isWordChar with
       | [] => false
       | d :: _ => decide (d = '@')))
    || hasPlaceholder rest

/-- Does `s` contain two adjacent `@` characters? -/
def noAtAt : Name → Bool
  | [] => true
  | [_] => true
  | c :: d :: rest => !(decide (c = '@') && decide (d = '@')) && noAtAt (d :: rest)

/-- Every `@` of the list is followed by a (possibly empty) run of word
characters that ends the list or is followed by a character that is not
`@`; such a list cannot contain a placeholder. -/
def atOk : Name → Bool
  | [] => true
  | c :: rest =>
    (if c = '@' then
       match rest.dropWhile isWordChar with
       | [] => true
       | d :: _ => decide (d ≠ '@')
     else true)
    && atOk rest

/-- The skip test of `main`'s acquisition loop, on the destination
directory's listing (`none` when `os.path.isdir(dest)` is false): fetch
unless the directory exists and already holds a `.c` file and a `.h.in`
file. -/
def performsFetch (dir : Option (List Name)) : Bool :=
  match dir with
  | none => true
  | some fs =>
    if fs.any (fun f => endswith f ".c".data) then
      if fs.any (fun f => endswith f ".h.in".data) then false
      else true
    else true

/-- The fixed dependency list `DEPENDENCY_LIBS`. -/
def DEPENDENCY_LIBS : List Name :=
  ["libcerror", "libcthreads", "libcdata", "libclocale", "libcnotify",
   "libcsplit", "libuna", "libcfile", "libcpath", "libbfio", "libfcache",
   "libfdata", "libfdatetime", "libfguid", "libfvalue", "libfwnt",
   "libfmapi"].map String.data

/-- The libraries checked by the verification step
(`DEPENDENCY_LIBS + ["libpff"]`). -/
def ALL_CHECK_LIBS : List Name := DEPENDENCY_LIBS ++ ["libpff".data]

/-- The fixed artifact paths whose existence the verification step
requires. -/
def EXPECTED_PATHS : List Name :=
  ["common/types.h", "common/config.h", "include/libpff/types.h",
   "include/libpff/features.h", "include/libpff/definitions.h",
   "libpff/libpff_definitions.h"].map String.data

/-- The substitution table `WIN_SUBS`, in its source (insertion) order. -/
def WIN_SUBS : List (Name × Name) :=
  [("@PACKAGE@", "libpff"), ("@VERSION@", "20250101"),
   ("@HAVE_WIDE_CHARACTER_TYPE@", "1"), ("@HAVE_MULTI_THREAD_SUPPORT@", "0"),
   ("@HAVE_LIBBFIO@", "0"), ("@HAVE_SYS_TYPES_H@", "0"),
   ("@HAVE_INTTYPES_H@", "0"), ("@HAVE_STDINT_H@", "1"),
   ("@HAVE_WCHAR_H@", "1"), ("@HAVE_SIZE32_T@", "0"),
   ("@HAVE_SSIZE32_T@", "0"), ("@HAVE_SIZE64_T@", "0"),
   ("@HAVE_SSIZE64_T@", "0"), ("@HAVE_OFF64_T@", "0")].map
    (fun kv => (kv.1.data, kv.2.data))

/-- The environment a run of the script sees: where `setup.py` is found,
each dependency's destination-directory listing, what each dependency's
download yields (`none` for a fetch error or empty data, as in
`download_zip`'s exception handler), and the content of `setup.cfg.in`
when that file exists. -/
structure World where
  scriptDirHasSetupPy : Bool
  cwdHasSetupPy : Bool
  depDir : Name → Option (List Name)
  fetchData : Name → Option Archive
  setupCfgIn : Option Name

/-- One iteration of the STEP-1 loop: skip a complete directory, otherwise
fetch and extract, appending the library to `failed` on a fetch error or a
zero-file extraction. -/
def acquireStep (w : World) (failed : List Name) (lib : Name) : List Name :=
  if performsFetch (w.depDir lib) then
    match w.fetchData lib with
    | none => failed ++ [lib]
    | some ar => if extractCount lib ar = 0 then failed ++ [lib] else failed
  else failed

/-- The STEP-1 loop over a list of libraries, threading the `failed`
accumulator. -/
def step1Loop (w : World) (libs : List Name) (failed : List Name) : List Name :=
  libs.foldl (acquireStep w) failed

/-- The `failed` list after STEP 1 of `main`. -/
def step1Failed (w : World) : List Name := step1Loop w DEPENDENCY_LIBS []

/-- Whether the fetched-and-extracted dependency counts as failed: the
fetch yielded nothing, or the extraction wrote zero files. -/
def depFailCond (w : World) (lib : Name) : Bool :=
  match w.fetchData lib with
  | none => true
  | some ar => decide (extractCount lib ar = 0)

/-- How many fetches STEP 1 issues: one per dependency that is not
skipped. -/
def step1FetchCount (w : World) : Nat :=
  (DEPENDENCY_LIBS.filter (fun lib => performsFetch (w.depDir lib))).length

/-- How many files STEP 1's extractions write in total. -/
def extractionWriteCount (w : World) : Nat :=
  DEPENDENCY_LIBS.foldl
    (fun n lib =>
      if performsFetch (w.depDir lib) then
        match w.fetchData lib with
        | none => n
        | some ar => n + extractCount lib ar
      else n)
    0

/-- STEP 3: the content written to `setup.cfg` — the `setup.cfg.in`
template with `@VERSION@` literally replaced by `20250101` and remaining
placeholders defaulted to `0`, or the fixed minimal text when no
`setup.cfg.in` exists. -/
def setupCfgContent (cfgIn : Option Name) : Name :=
  match cfgIn with
  | some content => reSubDefault (pyReplace content "@VERSION@".data "20250101".data)
  | none => "[metadata]\nname = pypff\nversion = 20250101\n".data

/-- The observable outcome of a run of `main`, up to (but not including)
the final verification step: whether the run exited early (`sys.exit`)
and with what status, how many fetches it issued, whether it wrote any
file, whether the template-generation phase ran, and what `setup.cfg`
holds after STEP 3. -/
structure MainResult where
  exitCode : Option Nat
  fetchCount : Nat
  anyFileWritten : Bool
  templatesRan : Bool
  setupCfg : Option Name

/-- `main`'s control flow before verification: abort if no `setup.py` is
found beside the script or in the working directory; run STEP 1 and abort
with status 1 when any dependency failed; otherwise run the generation
steps (STEP 2–4), which always write `setup.cfg` and `config.h`. -/
def runMain (w : World) : MainResult :=
  if w.scriptDirHasSetupPy || w.cwdHasSetupPy then
    if (step1Failed w).isEmpty then
      { exitCode := none
        fetchCount := step1FetchCount w
        anyFileWritten := true
        templatesRan := true
        setupCfg := some (setupCfgContent w.setupCfgIn) }
    else
      { exitCode := some 1
        fetchCount := step1FetchCount w
        anyFileWritten := decide (0 < extractionWriteCount w)
        templatesRan := false
        setupCfg := none }
  else
    { exitCode := some 1, fetchCount := 0, anyFileWritten := false,
      templatesRan := false, setupCfg := none }

/-- The verification step's `.c` count for one library directory
(`0` when the directory does not exist). -/
def cCount (dir : Option (List Name)) : Nat :=
  match dir with
  | none => 0
  | some fs => (fs.filter (fun f => endswith f ".c".data)).length

/-- STEP 5's `all_ok` flag: folded over every library check and then every
expected path, never short-circuiting the enumeration. -/
def verifyAllOk (depDir : Name → Option (List Name)) (pathExists : Name → Bool) : Bool :=
  let afterLibs :=
    ALL_CHECK_LIBS.foldl (fun ok lib => ok && decide (0 < cCount (depDir lib))) true
  EXPECTED_PATHS.foldl (fun ok p => ok && pathExists p) afterLibs

/-- The process exit the verification step causes: `sys.exit(1)` exactly
when `all_ok` is false. -/
def verifyExit (depDir : Name → Option (List Name)) (pathExists : Name → Bool) : Option Nat :=
  if verifyAllOk depDir pathExists then none else some 1

/-!  Specification-side predicates, written from the design document's
words, to compare against the embedded code. -/

/-- The spec's COMPLETE state of a dependency directory: it exists and
holds at least one file ending in `.c` and at least one ending in
`.h.in`. -/
def CompleteSpec (dir : Option (List Name)) : Prop :=
  ∃ fs, dir = some fs ∧
    (∃ f ∈ fs, endswith f ".c".data = true) ∧
    (∃ f ∈ fs, endswith f ".h.in".data = true)

/-- The spec's member-filter rule: at least three components, second
component exactly the dependency name, final component non-empty and
ending in an accepted suffix or equal to the build-descriptor name. -/
def KeepSpec (lib m : Name) : Prop :=
  3 ≤ (splitSlash m).length ∧ (splitSlash m).get? 1 = some lib ∧
    ∃ last, (splitSlash m).getLast? = some last ∧ last ≠ [] ∧
      (endswith last ".c".data = true ∨ endswith last ".h".data = true ∨
       endswith last ".h.in".data = true ∨ last = "Makefile.am".data)

/-- The spec's collision policy, as a reference fold: the content of the
last kept member (in enumeration order) whose final component is `n`. -/
def lastKeptStep (lib n : Name) (r : Option Name) (mc : Name × Name) : Option Name :=
  if keepMember lib mc.1 && decide (lastComp mc.1 = n) then some mc.2 else r

/-- Content of the last kept member named `n`, `none` when no kept member
flattens to `n`. -/
def lastKept (lib : Name) (ar : Archive) (n : Name) : Option Name :=
  ar.foldl (lastKeptStep lib n) none

/-- Is some kept member of the archive flattened to the file name `n`? -/
def anyKept (lib : Name) (ar : Archive) (n : Name) : Bool :=
  ar.any (fun mc => keepMember lib mc.1 && decide (lastComp mc.1 = n))

/-- A world with no `setup.py` anywhere and nothing else. -/
def w0 : World :=
  { scriptDirHasSetupPy := false, cwdHasSetupPy := false,
    depDir := fun _ => none, fetchData := fun _ => none, setupCfgIn := none }

/-- A world whose dependency directories are all already complete. -/
def w1 : World :=
  { scriptDirHasSetupPy := true, cwdHasSetupPy := false,
    depDir := fun _ => some ["a.c".data, "b.h.in".data],
    fetchData := fun _ => none, setupCfgIn := none }

/-- A world in which every dependency directory is missing and every
download fails. -/
def w2 : World :=
  { scriptDirHasSetupPy := true, cwdHasSetupPy := false,
    depDir := fun _ => none, fetchData := fun _ => none, setupCfgIn := none }

/-! Theorems. -/

/-- The acquisition loop skips a dependency exactly when its directory is
COMPLETE in the spec's sense. -/
lemma performsFetch_false_iff (dir : Option (List Name)) :
    performsFetch dir = false ↔ CompleteSpec dir := by
  cases dir with
  | none => simp [performsFetch, CompleteSpec]
  | some fs =>
    by_cases hc : fs.any (fun f => endswith f ".c".data) = true
    · by_cases hh : fs.any (fun f => endswith f ".h.in".data) = true
      · simp only [performsFetch, hc, hh, if_true]
        constructor
        · intro _
          exact ⟨fs, rfl, List.any_eq_true.mp hc, List.any_eq_true.mp hh⟩
        · intro _; trivial
      · simp only [performsFetch, hc, if_true, hh, if_false]
        constructor
        · intro h; cases h
        · rintro ⟨fs', hfs', _, h2⟩
          cases hfs'
          exact absurd (List.any_eq_true.mpr h2) hh
    · simp only [performsFetch, hc, if_false]
      constructor
      · intro h; cases h
      · rintro ⟨fs', hfs', h1, _⟩
        cases hfs'
        exact absurd (List.any_eq_true.mpr h1) hc

/-- C1: per dependency, the acquirer performs no fetch iff the destination
directory exists and holds at least one `.c` file and one `.h.in` file
(COMPLETE); consequently a run over dependency directories that are all
COMPLETE issues zero fetches. -/
theorem acquire_skips_iff_complete :
    (∀ dir : Option (List Name), performsFetch dir = false ↔ CompleteSpec dir) ∧
    (∀ w : World, (∀ lib ∈ DEPENDENCY_LIBS, CompleteSpec (w.depDir lib)) →
      step1FetchCount w = 0) := by
  refine ⟨performsFetch_false_iff, ?_⟩
  intro w h
  unfold step1FetchCount
  rw [List.length_eq_zero, List.filter_eq_nil_iff]
  intro lib hlib
  rw [Bool.not_eq_true, performsFetch_false_iff]
  exact h lib hlib

/-- C1 witness: with every dependency directory already complete, the run
fetches nothing. -/
theorem acquire_skips_iff_complete_witness : step1FetchCount w1 = 0 :=
  acquire_skips_iff_complete.2 w1
    (fun _ _ => ⟨["a.c".data, "b.h.in".data], rfl,
      ⟨"a.c".data, by decide, by decide⟩, ⟨"b.h.in".data, by decide, by decide⟩⟩)

end PWB


namespace PWB

/-- C2: a member is kept iff its path has at least three components, its
second component equals the dependency name, and its final component is
non-empty and ends in `.c`, `.h` or `.h.in` or equals `Makefile.am`; on
the spec's four-member example for dependency `x`, extraction yields
exactly the files `a.c`, `b.c`, `d.h.in`. -/
theorem extraction_filter_iff :
    (∀ lib m : Name, keepMember lib m = true ↔ KeepSpec lib m) ∧
    (extract_lib_sources "x".data
        [("x-main/x/a.c".data, "A".data), ("x-main/x/sub/b.c".data, "B".data),
         ("x-main/other/c.c".data, "C".data), ("x-main/x/d.h.in".data, "D".data)]).map
        Prod.fst
      = ["a.c".data, "b.c".data, "d.h.in".data] := by
  refine ⟨?_, by decide⟩
  intro lib m
  unfold keepMember KeepSpec
  cases h : (splitSlash m).getLast? with
  | none => simp [h]
  | some last =>
    cases last with
    | nil => simp [h]
    | cons a as =>
      simp only [h, Bool.and_eq_true, Bool.or_eq_true, decide_eq_true_eq, and_assoc,
        List.isEmpty_cons, Bool.not_false, Option.some.injEq]
      constructor
      · rintro ⟨h1, h2, _, h3⟩
        exact ⟨h1, h2, a :: as, rfl, by simp, by tauto⟩
      · rintro ⟨h1, h2, last, hl, _, h3⟩
        cases hl
        exact ⟨h1, h2, trivial, by tauto⟩

end PWB

namespace PWB

/-- A pattern with no occurrence in the text leaves the replacement scan
unchanged, whatever the fuel. -/
lemma replScan_no_occurrence :
    ∀ (s : Name) (fuel : Nat) (pat val : Name),
      containsSub pat s = false → replScan fuel pat val s = s := by
  intro s
  induction s with
  | nil => intro fuel pat val _; cases fuel <;> rfl
  | cons c rest ih =>
    intro fuel pat val h
    cases fuel with
    | zero => rfl
    | succ fuel =>
      simp only [containsSub, Bool.or_eq_false_iff] at h
      simp only [replScan, h.1, Bool.false_and]
      rw [if_neg (by simp), ih fuel pat val h.2]

/-- The empty pattern occurs in every text. -/
lemma containsSub_nil (s : Name) : containsSub [] s = true := by
  cases s <;> simp [containsSub, List.isPrefixOf]

/-- Python `replace`: a token absent from the content is a no-op. -/
lemma pyReplace_no_occurrence (pat val s : Name) (h : containsSub pat s = false) :
    pyReplace s pat val = s := by
  have hpat : pat.isEmpty = false := by
    cases pat with
    | nil => rw [containsSub_nil] at h; cases h
    | cons a l => rfl
  unfold pyReplace
  rw [hpat]
  simp only [Bool.false_eq_true, if_false]
  exact replScan_no_occurrence s s.length pat val h

/-- Reading a non-empty run of word characters in pending state and then a
closing `@` emits exactly `0`. -/
lemma reSubAux_word_block :
    ∀ ws acc : Name, (∀ c ∈ ws, isWordChar c = true) → (ws ≠ [] ∨ acc ≠ []) →
      reSubAux (some acc) (ws ++ ['@']) = ['0'] := by
  intro ws
  induction ws with
  | nil =>
    intro acc _ hne
    have hacc : acc ≠ [] := hne.resolve_left (by simp)
    cases acc with
    | nil => exact absurd rfl hacc
    | cons a as =>
      simp [reSubAux, show isWordChar '@' = false from by decide]
  | cons wc ws ih =>
    intro acc hword hne
    have hw : isWordChar wc = true := hword wc (List.mem_cons_self wc ws)
    simp only [List.cons_append, reSubAux, hw, if_true]
    exact ih (wc :: acc) (fun c hc => hword c (List.mem_cons_of_mem wc hc))
      (Or.inr (List.cons_ne_nil wc acc))

/-- C3: the table pass applies each pair in order as a literal replacement
(a token absent from the content is a no-op), the default pass rewrites a
placeholder — an `@`, a non-empty word-character run, an `@` — to `0`,
and the spec's example template generates exactly as stated. -/
theorem template_substitution_with_default :
    (∀ pat val s : Name, containsSub pat s = false → pyReplace s pat val = s) ∧
    (∀ ws : Name, ws ≠ [] → (∀ c ∈ ws, isWordChar c = true) →
      reSubDefault (('@' :: ws) ++ ['@']) = ['0']) ∧
    generate_h_from_template [("@A@".data, "1".data)]
        "#define A @A@\n#define B @B@\n".data
      = "#define A 1\n#define B 0\n".data := by
  refine ⟨pyReplace_no_occurrence, ?_, by decide⟩
  intro ws hne hword
  unfold reSubDefault
  rw [List.cons_append]
  simp only [reSubAux, if_pos rfl]
  exact reSubAux_word_block ws [] hword (Or.inl hne)

/-- C3 witness: the no-op and placeholder-defaulting parts at concrete
inputs. -/
theorem template_substitution_with_default_witness :
    pyReplace "xyz".data "@A@".data "1".data = "xyz".data ∧
    reSubDefault (('@' :: "AB".data) ++ ['@']) = ['0'] :=
  ⟨template_substitution_with_default.1 "@A@".data "1".data "xyz".data (by decide),
   template_substitution_with_default.2.1 "AB".data (by decide) (by decide)⟩

/-- C4 counterexample: the code's table pass applied to `"@A@"` with table
`[("@A@","@B@"),("@B@","2")]` yields `"2"`, not `"@B@"` — the value
inserted by the first entry IS rewritten by the later entry. -/
theorem later_entry_rewrites_counterexample :
    applySubs [("@A@".data, "@B@".data), ("@B@".data, "2".data)] "@A@".data = "2".data ∧
    applySubs [("@A@".data, "@B@".data), ("@B@".data, "2".data)] "@A@".data ≠ "@B@".data := by
  decide

/-- C4 amended: a single entry's replacement never rescans its own inserted
text, but each later table entry is applied to the full current content,
including values earlier entries inserted: the example table yields `"2"`. -/
theorem later_entry_rewrites_amended :
    pyReplace "@A@".data "@A@".data "x@A@x".data = "x@A@x".data ∧
    applySubs [("@A@".data, "@B@".data), ("@B@".data, "2".data)] "@A@".data = "2".data := by
  decide

end PWB

namespace PWB

/-- Splitting a true conjunction of booleans. -/
lemma band_split {a b : Bool} (h : (a && b) = true) : a = true ∧ b = true := by
  rw [Bool.and_eq_true] at h
  exact h

/-- A word character is not `@`. -/
lemma word_ne_at {c : Char} (h : isWordChar c = true) : ¬(c = '@') := by
  intro e
  rw [e] at h
  exact absurd h (by decide)

/-- Dropping word characters skips over a word-character prefix. -/
lemma dropWhile_word_append (ws l : Name) (h : ∀ c ∈ ws, isWordChar c = true) :
    (ws ++ l).dropWhile isWordChar = l.dropWhile isWordChar := by
  induction ws with
  | nil => rfl
  | cons w ws ih =>
    rw [List.cons_append, List.dropWhile_cons]
    rw [h w (List.mem_cons_self w ws)]
    simp only [if_true]
    exact ih (fun c hc => h c (List.mem_cons_of_mem w hc))

/-- `atOk` ignores a leading character other than `@`. -/
lemma atOk_cons_nonat {c : Char} (h : ¬(c = '@')) (l : Name) :
    atOk (c :: l) = atOk l := by
  simp [atOk, h]

/-- `atOk` ignores a word-character prefix. -/
lemma atOk_word_append (ws l : Name) (h : ∀ c ∈ ws, isWordChar c = true) :
    atOk (ws ++ l) = atOk l := by
  induction ws with
  | nil => rfl
  | cons w ws ih =>
    rw [List.cons_append, atOk_cons_nonat (word_ne_at (h w (List.mem_cons_self w ws)))]
    exact ih (fun c hc => h c (List.mem_cons_of_mem w hc))

/-- `noAtAt` passes to the tail. -/
lemma noAtAt_tail {c : Char} {rest : Name} (h : noAtAt (c :: rest) = true) :
    noAtAt rest = true := by
  cases rest with
  | nil => rfl
  | cons d t =>
    have h' : (!(decide (c = '@') && decide (d = '@')) && noAtAt (d :: t)) = true := h
    exact (band_split h').2

/-- After a lone `@` allowed by `noAtAt`, the next character is not `@`. -/
lemma noAtAt_head_at {rest : Name} (h : noAtAt ('@' :: rest) = true) :
    rest.head? ≠ some '@' := by
  cases rest with
  | nil => simp
  | cons d t =>
    have h' : (!(decide ('@' = '@') && decide (d = '@')) && noAtAt (d :: t)) = true := h
    have h1 := (band_split h').1
    simp only [List.head?_cons, ne_eq, Option.some.injEq]
    intro hd
    rw [hd] at h1
    exact absurd h1 (by decide)

/-- Core invariant of the defaulting scan: on input with no adjacent `@@`,
every `@` of the output is followed by a word run that never ends at
another `@`. -/
lemma reSubAux_atOk :
    ∀ (l : Name) (st : Option Name),
      noAtAt l = true →
      (∀ acc, st = some acc → ∀ c ∈ acc, isWordChar c = true) →
      (st = some [] → l.head? ≠ some '@') →
      atOk (reSubAux st l) = true := by
  intro l
  induction l with
  | nil =>
    intro st _ h2 _
    cases st with
    | none => rfl
    | some acc =>
      have hacc := h2 acc rfl
      have hrev : ∀ c ∈ acc.reverse, isWordChar c = true :=
        fun c hc => hacc c (List.mem_reverse.mp hc)
      show atOk ('@' :: acc.reverse) = true
      have hd : acc.reverse.dropWhile isWordChar = [] := by
        have := dropWhile_word_append acc.reverse [] hrev
        simpa using this
      have hA : atOk acc.reverse = true := by
        have := atOk_word_append acc.reverse [] hrev
        simpa using this
      simp [atOk, hd, hA]
  | cons c rest ih =>
    intro st h1 h2 h3
    have h1t : noAtAt rest = true := noAtAt_tail h1
    cases st with
    | none =>
      by_cases hc : c = '@'
      · subst hc
        rw [show reSubAux none ('@' :: rest) = reSubAux (some []) rest from by
          simp [reSubAux]]
        exact ih (some [])
          h1t
          (fun acc ha => by cases ha; intro x hx; cases hx)
          (fun _ => noAtAt_head_at h1)
      · rw [show reSubAux none (c :: rest) = c :: reSubAux none rest from by
          simp [reSubAux, hc]]
        rw [atOk_cons_nonat hc]
        exact ih none h1t (fun acc ha => Option.noConfusion ha)
          (fun ha => Option.noConfusion ha)
    | some acc =>
      have hacc : ∀ x ∈ acc, isWordChar x = true := h2 acc rfl
      by_cases hw : isWordChar c = true
      · rw [show reSubAux (some acc) (c :: rest) = reSubAux (some (c :: acc)) rest from by
          simp [reSubAux, hw]]
        refine ih (some (c :: acc)) h1t ?_ ?_
        · intro acc' ha x hx
          cases ha
          rcases List.mem_cons.mp hx with hx | hx
          · rw [hx]; exact hw
          · exact hacc x hx
        · intro ha
          exact absurd (Option.some.inj ha) (List.cons_ne_nil c acc)
      · by_cases hc : c = '@'
        · subst hc
          cases acc with
          | nil => exact absurd rfl (h3 rfl)
          | cons a as =>
            rw [show reSubAux (some (a :: as)) ('@' :: rest) = '0' :: reSubAux none rest
                from by simp [reSubAux, show isWordChar '@' = false from by decide]]
            rw [atOk_cons_nonat (by decide)]
            exact ih none h1t (fun acc' ha => Option.noConfusion ha)
              (fun ha => Option.noConfusion ha)
        · rw [show reSubAux (some acc) (c :: rest)
                = ('@' :: acc.reverse) ++ (c :: reSubAux none rest) from by
            simp [reSubAux, hw, hc]]
          have hrev : ∀ x ∈ acc.reverse, isWordChar x = true :=
            fun x hx => hacc x (List.mem_reverse.mp hx)
          have hout : atOk (reSubAux none rest) = true :=
            ih none h1t (fun acc' ha => Option.noConfusion ha)
              (fun ha => Option.noConfusion ha)
          have hwf : isWordChar c = false := by
            cases hx : isWordChar c
            · rfl
            · exact absurd hx hw
          have hd : (acc.reverse ++ (c :: reSubAux none rest)).dropWhile isWordChar
              = c :: reSubAux none rest := by
            rw [dropWhile_word_append _ _ hrev, List.dropWhile_cons, hwf]
            simp
          have hA : atOk (acc.reverse ++ (c :: reSubAux none rest)) = true := by
            rw [atOk_word_append _ _ hrev, atOk_cons_nonat hc]
            exact hout
          rw [List.cons_append]
          simp [atOk, hd, hA, hc]

/-- A list every `@` of which is word-run-terminated contains no
placeholder. -/
lemma atOk_no_placeholder : ∀ l : Name, atOk l = true → hasPlaceholder l = false := by
  intro l
  induction l with
  | nil => intro _; rfl
  | cons c rest ih =>
    intro h
    have h' : ((if c = '@' then
        match rest.dropWhile isWordChar with
        | [] => true
        | d :: _ => decide (d ≠ '@')
      else true) && atOk rest) = true := h
    obtain ⟨hhead, htail⟩ := band_split h'
    simp only [hasPlaceholder, Bool.or_eq_false_iff]
    refine ⟨?_, ih htail⟩
    by_cases hc : c = '@'
    · subst hc
      rw [if_pos rfl] at hhead
      cases hdw : rest.dropWhile isWordChar with
      | nil => simp [hdw]
      | cons d t =>
        rw [hdw] at hhead
        have hd : ¬(d = '@') := of_decide_eq_true hhead
        simp [hdw, hd]
    · simp [hc]

/-- The defaulting pass on text without adjacent `@@` leaves no
placeholder. -/
lemma reSubDefault_no_placeholder (s : Name) (h : noAtAt s = true) :
    hasPlaceholder (reSubDefault s) = false :=
  atOk_no_placeholder _
    (reSubAux_atOk s none h (fun _ ha => Option.noConfusion ha)
      (fun ha => Option.noConfusion ha))

/-- C5 counterexample: the template `"@@A@@"` generates `"@0@"`, which
still contains a placeholder-shaped substring — the claim's universal
no-unresolved-placeholder invariant fails. -/
theorem generated_placeholder_counterexample :
    hasPlaceholder (generate_h_from_template [] "@@A@@".data) = true ∧
    generate_h_from_template [] "@@A@@".data = "@0@".data := by
  decide

/-- C5 amended: whenever the content after the table pass has no two
adjacent `@` characters, the generated file contains no substring of the
form `@`, one or more word characters, `@`. -/
theorem generated_no_placeholder_amended :
    ∀ (subs : List (Name × Name)) (content : Name),
      noAtAt (applySubs subs content) = true →
      hasPlaceholder (generate_h_from_template subs content) = false :=
  fun _ _ h => reSubDefault_no_placeholder _ h

/-- C5 witness: a concrete template with separated placeholders generates
with no placeholder left. -/
theorem generated_no_placeholder_witness :
    noAtAt (applySubs [] "#define A @A@\n".data) = true ∧
    hasPlaceholder (generate_h_from_template [] "#define A @A@\n".data) = false :=
  ⟨by decide, generated_no_placeholder_amended [] "#define A @A@\n".data (by decide)⟩

end PWB

namespace PWB

/-- One acquisition step only appends to the accumulated `failed` list. -/
lemma acquireStep_append (w : World) (failed : List Name) (lib : Name) :
    acquireStep w failed lib = failed ++ acquireStep w [] lib := by
  unfold acquireStep
  cases hp : performsFetch (w.depDir lib) with
  | false => simp
  | true =>
    cases hf : w.fetchData lib with
    | none => simp
    | some ar =>
      by_cases hz : extractCount lib ar = 0 <;> simp [hz]

/-- The STEP-1 loop factors through its accumulator. -/
lemma step1Loop_acc :
    ∀ (libs : List Name) (w : World) (acc : List Name),
      step1Loop w libs acc = acc ++ step1Loop w libs [] := by
  intro libs
  induction libs with
  | nil => intro w acc; simp [step1Loop]
  | cons x xs ih =>
    intro w acc
    show List.foldl (acquireStep w) (acquireStep w acc x) xs
      = acc ++ List.foldl (acquireStep w) (acquireStep w [] x) xs
    rw [show List.foldl (acquireStep w) (acquireStep w acc x) xs
        = step1Loop w xs (acquireStep w acc x) from rfl]
    rw [show List.foldl (acquireStep w) (acquireStep w [] x) xs
        = step1Loop w xs (acquireStep w [] x) from rfl]
    rw [ih w (acquireStep w acc x), ih w (acquireStep w [] x),
      acquireStep_append w acc x, List.append_assoc]

/-- The STEP-1 loop distributes over list concatenation. -/
lemma step1Loop_append (w : World) (xs ys : List Name) :
    step1Loop w (xs ++ ys) [] = step1Loop w xs [] ++ step1Loop w ys [] := by
  show List.foldl (acquireStep w) [] (xs ++ ys) = _
  rw [List.foldl_append]
  exact step1Loop_acc ys w (List.foldl (acquireStep w) [] xs)

/-- A non-skipped dependency whose fetch fails or whose extraction writes
nothing ends as exactly `[lib]` from an empty accumulator. -/
lemma acquireStep_failed (w : World) (lib : Name)
    (hp : performsFetch (w.depDir lib) = true) (hf : depFailCond w lib = true) :
    acquireStep w [] lib = [lib] := by
  unfold acquireStep
  rw [hp]
  simp only [if_true]
  cases hd : w.fetchData lib with
  | none => simp
  | some ar =>
    unfold depFailCond at hf
    rw [hd] at hf
    simp only [decide_eq_true_eq] at hf
    simp [hf]

/-- C6: a dependency whose fetch errors or whose extraction writes zero
files lands in the `failed` list; the acquisition loop keeps processing
the remaining dependencies regardless (concatenation law); and when the
batch finishes with a non-empty `failed` list the run exits with status 1
before the template phase runs. -/
theorem failed_dependency_handling :
    (∀ (w : World) (lib : Name), lib ∈ DEPENDENCY_LIBS →
      performsFetch (w.depDir lib) = true → depFailCond w lib = true →
      lib ∈ step1Failed w) ∧
    (∀ (w : World) (xs ys : List Name),
      step1Loop w (xs ++ ys) [] = step1Loop w xs [] ++ step1Loop w ys []) ∧
    (∀ w : World, (w.scriptDirHasSetupPy || w.cwdHasSetupPy) = true →
      (step1Failed w).isEmpty = false →
      (runMain w).exitCode = some 1 ∧ (runMain w).templatesRan = false) := by
  refine ⟨?_, step1Loop_append, ?_⟩
  · intro w lib hmem hp hf
    obtain ⟨s, t, hst⟩ := List.append_of_mem hmem
    unfold step1Failed
    rw [hst, step1Loop_append]
    have : step1Loop w (lib :: t) [] = [lib] ++ step1Loop w t [] := by
      show List.foldl (acquireStep w) (acquireStep w [] lib) t = _
      rw [show List.foldl (acquireStep w) (acquireStep w [] lib) t
          = step1Loop w t (acquireStep w [] lib) from rfl]
      rw [step1Loop_acc t w (acquireStep w [] lib), acquireStep_failed w lib hp hf]
    rw [this]
    simp
  · intro w h1 h2
    simp [runMain, h1, h2]

/-- C6 witness: in a world where every download fails, `libcerror` is
failed and the run aborts with status 1 before template generation. -/
theorem failed_dependency_handling_witness :
    "libcerror".data ∈ step1Failed w2 ∧
    (runMain w2).exitCode = some 1 ∧ (runMain w2).templatesRan = false :=
  ⟨failed_dependency_handling.1 w2 "libcerror".data (by decide) rfl rfl,
   failed_dependency_handling.2.2 w2 rfl (by decide)⟩

/-- Folding conjunction over a list computes `List.all`. -/
lemma foldl_and_eq {α : Type} (l : List α) (f : α → Bool) :
    ∀ b : Bool, l.foldl (fun acc x => acc && f x) b = (b && l.all f) := by
  induction l with
  | nil => intro b; simp
  | cons x xs ih =>
    intro b
    rw [List.foldl_cons, ih (b && f x), List.all_cons, Bool.and_assoc]

/-- C7: the verification verdict is the conjunction of every per-library
`.c`-count check and every expected-path existence check, and the process
exits non-zero exactly when that aggregate is false. -/
theorem verification_aggregate :
    ∀ (depDir : Name → Option (List Name)) (pathExists : Name → Bool),
      verifyAllOk depDir pathExists =
        (ALL_CHECK_LIBS.all (fun lib => decide (0 < cCount (depDir lib))) &&
         EXPECTED_PATHS.all pathExists) ∧
      (verifyExit depDir pathExists = some 1 ↔
        ¬ ((∀ lib ∈ ALL_CHECK_LIBS, 0 < cCount (depDir lib)) ∧
           (∀ p ∈ EXPECTED_PATHS, pathExists p = true))) := by
  intro d e
  have h1 : verifyAllOk d e =
      (ALL_CHECK_LIBS.all (fun lib => decide (0 < cCount (d lib))) &&
       EXPECTED_PATHS.all e) := by
    unfold verifyAllOk
    rw [foldl_and_eq, foldl_and_eq, Bool.true_and]
  refine ⟨h1, ?_⟩
  unfold verifyExit
  rw [h1]
  cases hl : ALL_CHECK_LIBS.all (fun lib => decide (0 < cCount (d lib))) with
  | false =>
    simp only [Bool.false_and, Bool.false_eq_true, if_false, true_iff]
    intro hcon
    have : ALL_CHECK_LIBS.all (fun lib => decide (0 < cCount (d lib))) = true := by
      rw [List.all_eq_true]
      intro lib hlib
      exact decide_eq_true (hcon.1 lib hlib)
    rw [hl] at this
    cases this
  | true =>
    cases he : EXPECTED_PATHS.all e with
    | false =>
      simp only [Bool.true_and, Bool.false_eq_true, if_false, true_iff]
      intro hcon
      have : EXPECTED_PATHS.all e = true := List.all_eq_true.mpr hcon.2
      rw [he] at this
      cases this
    | true =>
      simp only [Bool.true_and, if_true]
      constructor
      · intro hx; cases hx
      · intro hcon
        exact absurd
          ⟨fun lib hlib => of_decide_eq_true (List.all_eq_true.mp hl lib hlib),
           fun p hp => List.all_eq_true.mp he p hp⟩ hcon

end PWB

namespace PWB

/-- Entries excluded by name and then filtered for that name vanish. -/
lemma double_filter_nil (fs : FileSys) (n : Name) :
    (fs.filter (fun p => !decide (p.1 = n))).filter (fun p => decide (p.1 = n)) = [] := by
  induction fs with
  | nil => rfl
  | cons p fs ih =>
    by_cases h : p.1 = n <;> simp [List.filter_cons, h, ih]

/-- Filtering for `n` ignores a write to a different name `m`. -/
lemma filter_writeFile_other (fs : FileSys) (n m : Name) (c : Name) (h : ¬(n = m)) :
    (writeFile fs m c).filter (fun p => decide (p.1 = n))
      = fs.filter (fun p => decide (p.1 = n)) := by
  have hmn : ¬(m = n) := fun e => h e.symm
  unfold writeFile
  rw [List.filter_append]
  have h2 : ([(m, c)] : FileSys).filter (fun p => decide (p.1 = n)) = [] := by
    simp [List.filter_cons, hmn]
  rw [h2, List.append_nil]
  induction fs with
  | nil => rfl
  | cons p fs ih =>
    by_cases hp : p.1 = n
    · have hpm : ¬(p.1 = m) := fun e => h (hp ▸ e)
      simp [List.filter_cons, hp, hpm, ih, h, hmn]
    · by_cases hpm : p.1 = m <;> simp [List.filter_cons, hp, hpm, ih, h, hmn]

/-- After writing `n`, looking up `n` yields the written content. -/
lemma lookupLast_writeFile_self (fs : FileSys) (n c : Name) :
    lookupLast (writeFile fs n c) n = some c := by
  unfold lookupLast writeFile
  rw [List.filter_append, double_filter_nil]
  simp [List.filter_cons]

/-- Writing a different name leaves a lookup unchanged. -/
lemma lookupLast_writeFile_other (fs : FileSys) (n m c : Name) (h : ¬(n = m)) :
    lookupLast (writeFile fs m c) n = lookupLast fs n := by
  unfold lookupLast
  rw [filter_writeFile_other fs n m c h]

/-- After writing `n`, exactly one file is named `n`. -/
lemma countName_writeFile_self (fs : FileSys) (n c : Name) :
    countName (writeFile fs n c) n = 1 := by
  unfold countName writeFile
  rw [List.filter_append, double_filter_nil]
  simp [List.filter_cons]

/-- Writing a different name leaves a name count unchanged. -/
lemma countName_writeFile_other (fs : FileSys) (n m c : Name) (h : ¬(n = m)) :
    countName (writeFile fs m c) n = countName fs n := by
  unfold countName
  rw [filter_writeFile_other fs n m c h]

/-- The extraction loop's effect on one lookup, from any starting
directory: it folds the spec's last-kept-member-wins accumulator. -/
lemma extract_loop_lookup :
    ∀ (ar : Archive) (fs : FileSys) (lib n : Name),
      lookupLast (ar.foldl (extractStep lib) fs) n
        = ar.foldl (lastKeptStep lib n) (lookupLast fs n) := by
  intro ar
  induction ar with
  | nil => intro fs lib n; rfl
  | cons mc ar ih =>
    intro fs lib n
    rw [List.foldl_cons, List.foldl_cons, ih]
    congr 1
    unfold extractStep lastKeptStep
    by_cases hk : keepMember lib mc.1 = true
    · by_cases hn : lastComp mc.1 = n
      · rw [hn]
        simp [hk, hn, lookupLast_writeFile_self]
      · simp [hk, hn, lookupLast_writeFile_other _ _ _ _ (fun e => hn e.symm)]
    · simp [hk]

/-- The extraction loop's effect on one name count: one file when some
kept member flattens to the name, the starting count otherwise. -/
lemma extract_loop_count :
    ∀ (ar : Archive) (fs : FileSys) (lib n : Name),
      countName (ar.foldl (extractStep lib) fs) n
        = (if anyKept lib ar n then 1 else countName fs n) := by
  intro ar
  induction ar with
  | nil => intro fs lib n; simp [anyKept]
  | cons mc ar ih =>
    intro fs lib n
    rw [List.foldl_cons, ih]
    unfold anyKept at *
    rw [List.any_cons]
    cases hrest : ar.any (fun mc => keepMember lib mc.1 && decide (lastComp mc.1 = n)) with
    | true => simp
    | false =>
      simp only [Bool.or_false]
      unfold extractStep
      by_cases hk : keepMember lib mc.1 = true
      · by_cases hn : lastComp mc.1 = n
        · rw [hn]
          simp [hk, hn, countName_writeFile_self]
        · simp [hk, hn, countName_writeFile_other _ _ _ _ (fun e => hn e.symm)]
      · simp [hk]

/-- C8: for every flattened file name, the extracted directory holds
exactly one file of that name when any kept member maps to it, and its
content is the content of the last kept member in the archive's
enumeration order; on a concrete two-member collision the later member's
content wins. -/
theorem collision_later_member_wins :
    (∀ (lib : Name) (ar : Archive) (n : Name),
      lookupLast (extract_lib_sources lib ar) n = lastKept lib ar n ∧
      countName (extract_lib_sources lib ar) n = (if anyKept lib ar n then 1 else 0)) ∧
    lookupLast (extract_lib_sources "x".data
        [("x-main/x/a/f.c".data, "1".data), ("x-main/x/b/f.c".data, "2".data)])
        "f.c".data = some "2".data ∧
    countName (extract_lib_sources "x".data
        [("x-main/x/a/f.c".data, "1".data), ("x-main/x/b/f.c".data, "2".data)])
        "f.c".data = 1 := by
  refine ⟨?_, by decide, by decide⟩
  intro lib ar n
  constructor
  · unfold extract_lib_sources lastKept
    exact extract_loop_lookup ar [] lib n
  · unfold extract_lib_sources
    rw [extract_loop_count ar [] lib n]
    rfl

end PWB

namespace PWB

/-- C9: when neither the script's directory nor the working directory
holds `setup.py`, the run exits with an error before issuing any fetch or
writing any file. -/
theorem missing_setup_py_aborts_early :
    ∀ w : World, w.scriptDirHasSetupPy = false → w.cwdHasSetupPy = false →
      (runMain w).exitCode = some 1 ∧ (runMain w).fetchCount = 0 ∧
      (runMain w).anyFileWritten = false := by
  intro w h1 h2
  simp [runMain, h1, h2]

/-- C9 witness: the empty world exits early with no fetch and no write. -/
theorem missing_setup_py_aborts_early_witness :
    (runMain w0).exitCode = some 1 ∧ (runMain w0).fetchCount = 0 ∧
    (runMain w0).anyFileWritten = false :=
  missing_setup_py_aborts_early w0 rfl rfl

/-- C10: a run that reaches the generation phase always ends it with a
`setup.cfg`: the `setup.cfg.in` template with `@VERSION@` replaced by
`20250101` and remaining placeholders defaulted to `0`, or the fixed
minimal metadata block when no `setup.cfg.in` exists. -/
theorem setup_cfg_always_written :
    ∀ w : World, (w.scriptDirHasSetupPy || w.cwdHasSetupPy) = true →
      (step1Failed w).isEmpty = true →
      (runMain w).setupCfg = some (setupCfgContent w.setupCfgIn) ∧
      setupCfgContent none = "[metadata]\nname = pypff\nversion = 20250101\n".data ∧
      setupCfgContent (some "name = pypff\nversion = @VERSION@\nextra = @FOO@\n".data)
        = "name = pypff\nversion = 20250101\nextra = 0\n".data := by
  intro w h1 h2
  refine ⟨?_, by decide, by decide⟩
  simp [runMain, h1, h2]

/-- C10 witness: a world whose dependencies are all complete reaches
generation and gets the minimal `setup.cfg`. -/
theorem setup_cfg_always_written_witness :
    (runMain w1).setupCfg = some (setupCfgContent w1.setupCfgIn) ∧
    setupCfgContent none = "[metadata]\nname = pypff\nversion = 20250101\n".data ∧
    setupCfgContent (some "name = pypff\nversion = @VERSION@\nextra = @FOO@\n".data)
      = "name = pypff\nversion = 20250101\nextra = 0\n".data :=
  setup_cfg_always_written w1 rfl (by decide)

end PWB
